import Mathlib

/-!
# Verification of the ls-pretty core subsystems

Shallow embedding of the three stateful subsystems of the `ls-pretty`
terminal file browser (source: `src/main.rs`, `src/tabs.rs`):

* the multi-document tab manager (`TabManager` in `tabs.rs`);
* the editable text buffer (`handle_file_edit`, `save_file` in `main.rs`);
* the embedded terminal session (`try_create_pty`'s background reader and
  `send_to_terminal` in `main.rs`).

Modelling conventions: Rust `String` values that the code processes
character-by-character (`chars()`, `lines()`) are modelled as `List Char`;
strings that the tab manager treats opaquely (names, paths, contents) are
modelled as Lean `String`.  `str::len()` is the UTF-8 byte length and is
modelled as such (`utf8Length`, summing `Char.utf8Size`), which matters on
non-ASCII text where it differs from the character count.  Rust operations
that can panic (`Vec::insert`, `Vec::remove`) are modelled as
`Option`-returning functions that return `none` exactly when the Rust code
would panic.  Fallible operations returning `Result` are modelled with
`Except`.
-/

namespace LsPretty

/-! ## Tab manager (`src/tabs.rs`) -/

/-- Model of `struct Tab` in `tabs.rs`. -/
structure Tab where
  id : Nat
  name : String
  path : String
  content : String
  original_content : String
  has_unsaved_changes : Bool
  cursor_line : Nat
  cursor_col : Nat
  scroll_offset : Nat
  file_version : Int
deriving Repr, DecidableEq, Inhabited

/-- `Tab::new` in `tabs.rs`. -/
def Tab.new (id : Nat) (name : String) (path : String) (content : String) : Tab :=
  { id := id
    name := name
    path := path
    content := content
    original_content := content
    has_unsaved_changes := false
    cursor_line := 0
    cursor_col := 0
    scroll_offset := 0
    file_version := 1 }

/-- Model of `struct TabManager` in `tabs.rs`. -/
structure TabManager where
  tabs : List Tab
  active_tab : Nat
  next_id : Nat
  show_close_confirmation : Bool
  tab_to_close : Option Nat
deriving Repr, DecidableEq

/-- `TabManager::new`. -/
def TabManager.new : TabManager :=
  { tabs := []
    active_tab := 0
    next_id := 1
    show_close_confirmation := false
    tab_to_close := none }

/-- `Iterator::position`: index of the first element satisfying `p`. -/
def listPosition (p : α → Bool) : List α → Option Nat
  | [] => none
  | x :: xs => if p x then some 0 else (listPosition p xs).map (· + 1)

/-- `TabManager::find_tab_by_path`: `self.tabs.iter().position(|tab| tab.path == *path)`. -/
def TabManager.find_tab_by_path (m : TabManager) (path : String) : Option Nat :=
  listPosition (fun tab => tab.path = path) m.tabs

/-- `TabManager::add_tab`.  Returns the new active index together with the
updated manager. -/
def TabManager.add_tab (m : TabManager) (name : String) (path : String)
    (content : String) : Nat × TabManager :=
  match m.find_tab_by_path path with
  | some existing_tab_idx => (existing_tab_idx, { m with active_tab := existing_tab_idx })
  | none =>
    let id := m.next_id
    let tab := Tab.new id name path content
    let tabs := m.tabs ++ [tab]
    (tabs.length - 1,
      { m with next_id := m.next_id + 1, tabs := tabs, active_tab := tabs.length - 1 })

/-- The active-index repair block shared verbatim by `close_tab` and
`force_close_tab` (runs after `self.tabs.remove(index)`). -/
def TabManager.repair_active (m : TabManager) (index : Nat) : TabManager :=
  if m.tabs.isEmpty then { m with active_tab := 0 }
  else if m.active_tab ≥ m.tabs.length then { m with active_tab := m.tabs.length - 1 }
  else if index ≤ m.active_tab ∧ m.active_tab > 0 then
    { m with active_tab := m.active_tab - 1 }
  else m

/-- `TabManager::close_tab`.  Returns the `Result` alongside the updated
manager state. -/
def TabManager.close_tab (m : TabManager) (index : Nat) :
    Except String Unit × TabManager :=
  if index ≥ m.tabs.length then
    (Except.error "Tab index out of bounds", m)
  else if (m.tabs.getD index default).has_unsaved_changes then
    (Except.error "Tab has unsaved changes",
      { m with tab_to_close := some index, show_close_confirmation := true })
  else
    let m := { m with tabs := m.tabs.eraseIdx index }
    (Except.ok (), m.repair_active index)

/-- `TabManager::force_close_tab`. -/
def TabManager.force_close_tab (m : TabManager) (index : Nat) :
    Except String Unit × TabManager :=
  if index ≥ m.tabs.length then
    (Except.error "Tab index out of bounds", m)
  else
    let m := { m with tabs := m.tabs.eraseIdx index }
    (Except.ok (), m.repair_active index)

/-- `TabManager::confirm_close_tab`: force-closes the pending tab (result
discarded via `let _ =`) and clears the confirmation state. -/
def TabManager.confirm_close_tab (m : TabManager) : TabManager :=
  let m :=
    match m.tab_to_close with
    | some index => (m.force_close_tab index).2
    | none => m
  { m with show_close_confirmation := false, tab_to_close := none }

/-- `TabManager::cancel_close_tab`. -/
def TabManager.cancel_close_tab (m : TabManager) : TabManager :=
  { m with show_close_confirmation := false, tab_to_close := none }

/-- `TabManager::switch_to_tab`. -/
def TabManager.switch_to_tab (m : TabManager) (index : Nat) :
    Except String Unit × TabManager :=
  if index ≥ m.tabs.length then (Except.error "Tab index out of bounds", m)
  else (Except.ok (), { m with active_tab := index })

/-- `TabManager::next_tab`. -/
def TabManager.next_tab (m : TabManager) : TabManager :=
  if m.tabs.isEmpty then m
  else { m with active_tab := (m.active_tab + 1) % m.tabs.length }

/-- `TabManager::previous_tab`. -/
def TabManager.previous_tab (m : TabManager) : TabManager :=
  if m.tabs.isEmpty then m
  else if m.active_tab = 0 then { m with active_tab := m.tabs.length - 1 }
  else { m with active_tab := m.active_tab - 1 }

/-- The operations of claim C7, as a syntactic action type. -/
inductive TabOp where
  | addTab (name path content : String)
  | closeTab (index : Nat)
  | forceCloseTab (index : Nat)
  | confirmCloseTab
  | switchToTab (index : Nat)
  | nextTab
  | previousTab
deriving Repr, DecidableEq

/-- Apply a `TabOp`, discarding `Result`s / returned indices (the caller in
`main.rs` ignores them for state-invariant purposes). -/
def TabManager.applyOp (m : TabManager) : TabOp → TabManager
  | TabOp.addTab name path content => (m.add_tab name path content).2
  | TabOp.closeTab index => (m.close_tab index).2
  | TabOp.forceCloseTab index => (m.force_close_tab index).2
  | TabOp.confirmCloseTab => m.confirm_close_tab
  | TabOp.switchToTab index => (m.switch_to_tab index).2
  | TabOp.nextTab => m.next_tab
  | TabOp.previousTab => m.previous_tab

/-- Run a sequence of tab operations from the freshly constructed manager. -/
def TabManager.run (ops : List TabOp) : TabManager :=
  ops.foldl TabManager.applyOp TabManager.new

/-- The active-index invariant of the spec's data model. -/
def TabManager.ActiveOk (m : TabManager) : Prop :=
  m.tabs = [] ∨ m.active_tab < m.tabs.length

/-- Claim C6's statement about an in-range index `i`: a clean tab is removed
immediately with the confirmation state untouched; a dirty tab leaves the tab
list intact, records the pending index and raises the confirmation flag, after
which `confirm_close_tab` removes exactly that tab and `cancel_close_tab`
clears the pending state without structural change. -/
def CloseTabBehavior (m : TabManager) (i : Nat) : Prop :=
  ((m.tabs.getD i default).has_unsaved_changes = false →
    (m.close_tab i).2.tabs = m.tabs.eraseIdx i ∧
    (m.close_tab i).2.tabs.length + 1 = m.tabs.length ∧
    (m.close_tab i).2.show_close_confirmation = m.show_close_confirmation ∧
    (m.close_tab i).2.tab_to_close = m.tab_to_close) ∧
  ((m.tabs.getD i default).has_unsaved_changes = true →
    (m.close_tab i).2.tabs = m.tabs ∧
    (m.close_tab i).2.tab_to_close = some i ∧
    (m.close_tab i).2.show_close_confirmation = true ∧
    ((m.close_tab i).2.confirm_close_tab).tabs = m.tabs.eraseIdx i ∧
    ((m.close_tab i).2.confirm_close_tab).tabs.length + 1 = m.tabs.length ∧
    ((m.close_tab i).2.confirm_close_tab).show_close_confirmation = false ∧
    ((m.close_tab i).2.confirm_close_tab).tab_to_close = none ∧
    ((m.close_tab i).2.cancel_close_tab).tabs = m.tabs ∧
    ((m.close_tab i).2.cancel_close_tab).show_close_confirmation = false ∧
    ((m.close_tab i).2.cancel_close_tab).tab_to_close = none)

/-- Claim C10's statement about an in-range dirty index `i`: `close_tab`
reports an error, removes nothing and records the pending-close state. -/
def CloseTabDirtyErr (m : TabManager) (i : Nat) : Prop :=
  (m.close_tab i).1 = Except.error "Tab has unsaved changes" ∧
  (m.close_tab i).2.tabs = m.tabs ∧
  (m.close_tab i).2.tab_to_close = some i ∧
  (m.close_tab i).2.show_close_confirmation = true

/-- A one-tab manager whose tab is clean (used to instantiate C6). -/
def cleanTabManager : TabManager :=
  (TabManager.new.add_tab "a.txt" "a.txt" "hello").2

/-- A one-tab manager whose tab has unsaved changes (used to instantiate C10). -/
def dirtyTabManager : TabManager :=
  { tabs := [{ Tab.new 1 "a.txt" "a.txt" "hello" with has_unsaved_changes := true }]
    active_tab := 0
    next_id := 2
    show_close_confirmation := false
    tab_to_close := none }

/-- A two-tab manager whose tabs are dirty (clean and dirty cases of C6). -/
def mixedTabManager : TabManager :=
  { tabs := [Tab.new 1 "a.txt" "a.txt" "hello",
             { Tab.new 2 "b.txt" "b.txt" "world" with has_unsaved_changes := true }]
    active_tab := 1
    next_id := 3
    show_close_confirmation := false
    tab_to_close := none }

/-! ## Editable buffer (`handle_file_edit` and friends in `src/main.rs`) -/

/-- Rust `char::is_control`: the Unicode `Cc` category,
`U+0000..U+001F` and `U+007F..U+009F`. -/
def isControlChar (c : Char) : Bool :=
  decide (c.toNat ≤ 0x1f) || (decide (0x7f ≤ c.toNat) && decide (c.toNat ≤ 0x9f))

/-- The backspace character `'\u{8}'` of `handle_file_edit`. -/
def backspaceChar : Char := Char.ofNat 8

/-- The delete character `'\u{7f}'`, routed to the same backspace arm. -/
def deleteChar : Char := Char.ofNat 127

/-- `Vec::insert(index, a)`: `none` exactly when Rust would panic
(`index > len`). -/
def listInsertAt? : Nat → α → List α → Option (List α)
  | 0, a, l => some (a :: l)
  | _ + 1, _, [] => none
  | n + 1, a, x :: xs => (listInsertAt? n a xs).map (x :: ·)

/-- `Vec::remove(index)`: `none` exactly when Rust would panic
(`index ≥ len`). -/
def listRemoveAt? : Nat → List α → Option (List α)
  | _, [] => none
  | 0, _ :: xs => some xs
  | n + 1, x :: xs => (listRemoveAt? n xs).map (x :: ·)

/-- `str::split_inclusive('\n')`: pieces keep their terminating newline; an
empty string yields no pieces. -/
def splitInclusiveNl : List Char → List (List Char)
  | [] => []
  | c :: rest =>
    if c = '\n' then ['\n'] :: splitInclusiveNl rest
    else
      match splitInclusiveNl rest with
      | [] => [[c]]
      | l :: ls => (c :: l) :: ls

/-- The per-piece map of `str::lines()`: strip one trailing `'\n'`, and only
if one was stripped also one trailing `'\r'`. -/
def linesMap (piece : List Char) : List Char :=
  if piece.getLast? = some '\n' then
    let p1 := piece.dropLast
    if p1.getLast? = some '\r' then p1.dropLast else p1
  else piece

/-- Rust `str::lines()`. -/
def rustLines (s : List Char) : List (List Char) :=
  (splitInclusiveNl s).map linesMap

/-- Rust `str::len()`: the UTF-8 byte length of the text. -/
def utf8Length (l : List Char) : Nat := (l.map Char.utf8Size).sum

/-- The fields of `App` (`main.rs`) that the buffer-editing operations read
and write. -/
structure EditorState where
  file_content : List Char
  original_file_content : List Char
  cursor_position : Nat
  cursor_line : Nat
  cursor_col : Nat
  file_content_scroll : Nat
  file_has_unsaved_changes : Bool
deriving Repr, DecidableEq

/-- `let visible_lines = 30;` in `handle_file_edit`. -/
def visibleLines : Nat := 30

/-- The auto-scroll block at the end of `handle_file_edit`
(`saturating_sub` is `Nat` subtraction). -/
def autoscroll (s : EditorState) : EditorState :=
  if s.cursor_line ≥ s.file_content_scroll + visibleLines then
    { s with file_content_scroll := s.cursor_line - (visibleLines - 1) }
  else if s.cursor_line < s.file_content_scroll then
    { s with file_content_scroll := s.cursor_line }
  else s

/-- The common tail of `handle_file_edit`: commit `new_chars` to
`file_content`, recompute the dirty flag by equality with the original, then
auto-scroll. -/
def finishEdit (s : EditorState) (new_chars : List Char) : EditorState :=
  autoscroll { s with
    file_content := new_chars
    file_has_unsaved_changes := decide (new_chars ≠ s.original_file_content) }

/-- `App::handle_file_edit`.  `none` models the panic of an out-of-bounds
`Vec::insert`/`Vec::remove` (which the invariants below rule out). -/
def handle_file_edit (s : EditorState) (ch : Char) : Option EditorState :=
  if ch = '\n' then
    (listInsertAt? s.cursor_position '\n' s.file_content).map fun new_chars =>
      finishEdit { s with
        cursor_position := s.cursor_position + 1
        cursor_line := s.cursor_line + 1
        cursor_col := 0 } new_chars
  else if ch = backspaceChar ∨ ch = deleteChar then
    if s.cursor_position > 0 then
      (listRemoveAt? (s.cursor_position - 1) s.file_content).map fun new_chars =>
        let s1 := { s with cursor_position := s.cursor_position - 1 }
        let s2 :=
          if s1.cursor_col > 0 then { s1 with cursor_col := s1.cursor_col - 1 }
          else if s1.cursor_line > 0 then
            let s3 := { s1 with cursor_line := s1.cursor_line - 1 }
            let lines := rustLines s.file_content
            if s3.cursor_line < lines.length then
              { s3 with cursor_col := utf8Length (lines.getD s3.cursor_line []) }
            else s3
          else s1
        finishEdit s2 new_chars
    else some (finishEdit s s.file_content)
  else if isControlChar ch then
    some (finishEdit s s.file_content)
  else
    (listInsertAt? s.cursor_position ch s.file_content).map fun new_chars =>
      finishEdit { s with
        cursor_position := s.cursor_position + 1
        cursor_col := s.cursor_col + 1 } new_chars

/-- The buffer fields after `App::open_file` succeeds on `content`
(`update_cursor_position` zeroes the cursor). -/
def openBuffer (content : List Char) : EditorState :=
  { file_content := content
    original_file_content := content
    cursor_position := 0
    cursor_line := 0
    cursor_col := 0
    file_content_scroll := 0
    file_has_unsaved_changes := false }

/-- One step of deriving (line, col) from the characters before the cursor. -/
def lineColStep (lc : Nat × Nat) (c : Char) : Nat × Nat :=
  if c = '\n' then (lc.1 + 1, 0) else (lc.1, lc.2 + 1)

/-- (line, col) derived from an absolute offset prefix, per the spec's data
model: count line breaks, and characters since the last break. -/
def lineCol (l : List Char) : Nat × Nat := l.foldl lineColStep (0, 0)

/-- The documented state invariant of the editor buffer: cursor offset in
bounds, (line, col) derived from the offset, every character before the
cursor insertable by `handle_file_edit` (a newline or a non-control
character), dirty flag equal to content-vs-original inequality, and the
cursor line inside the visible scroll window. -/
def EditorInv (s : EditorState) : Prop :=
  s.cursor_position ≤ s.file_content.length ∧
  s.cursor_line = (lineCol (s.file_content.take s.cursor_position)).1 ∧
  s.cursor_col = (lineCol (s.file_content.take s.cursor_position)).2 ∧
  (∀ c ∈ s.file_content.take s.cursor_position, c = '\n' ∨ isControlChar c = false) ∧
  s.file_has_unsaved_changes = decide (s.file_content ≠ s.original_file_content) ∧
  s.file_content_scroll ≤ s.cursor_line ∧
  s.cursor_line < s.file_content_scroll + visibleLines

instance (s : EditorState) : Decidable (EditorInv s) := by
  unfold EditorInv
  infer_instance

/-- Buffer states reachable from a freshly opened file via editing keys. -/
inductive EditorReachable : EditorState → Prop
  | opened (content : List Char) : EditorReachable (openBuffer content)
  | step {s s' : EditorState} (ch : Char) :
      EditorReachable s → handle_file_edit s ch = some s' → EditorReachable s'

/-- Run a sequence of editing keys from a freshly opened buffer; `none`
models a panic along the way. -/
def runEdits (content : List Char) (chs : List Char) : Option EditorState :=
  chs.foldl (fun acc ch => acc.bind (fun s => handle_file_edit s ch))
    (some (openBuffer content))

/-! ## Terminal session (`try_create_pty` reader and `send_to_terminal` in
`src/main.rs`) -/

/-- `[&str]::join("\n")`. -/
def joinNl : List (List Char) → List Char
  | [] => []
  | [l] => l
  | l :: ls => l ++ '\n' :: joinNl ls

/-- One non-empty read in the background reader of `try_create_pty`:
`output.push_str(&text)`, then if `output.lines().count() > 100` replace the
buffer by the last 100 lines joined with `"\n"`. -/
def reader_append_chunk (output chunk : List Char) : List Char :=
  let output2 := output ++ chunk
  let lines := rustLines output2
  if lines.length > 100 then joinNl (lines.drop (lines.length - 100)) else output2

/-- The reader thread processing a sequence of decoded chunks in order,
starting from an empty `output_buffer`. -/
def reader_run (chunks : List (List Char)) : List Char :=
  chunks.foldl reader_append_chunk []

/-- 150 single-line chunks with pairwise distinct line bodies: chunk `i` is
the one-character line `Char.ofNat (200 + i)` followed by `'\n'`. -/
def c1Chunks : List (List Char) :=
  (List.range 150).map (fun i => [Char.ofNat (200 + i), '\n'])

/-- What claim C1 asserts the buffer holds afterwards: exactly the last 100
of those lines, in original order. -/
def c1Expected : List (List Char) :=
  ((List.range 150).drop 50).map (fun i => [Char.ofNat (200 + i)])

/-- The `send_to_terminal`-relevant fields of `App`: whether `terminal_pty`
is `Some`, the bytes handed to the pty writer so far, and the shared
`terminal_output` buffer. -/
structure TerminalState where
  has_pty : Bool
  pty_written : List Char
  terminal_output : List Char
deriving Repr, DecidableEq

/-- The marker `"(no terminal) "` pushed before the echoed input when no pty
exists. -/
def noTerminalMarker : List Char := "(no terminal) ".toList

/-- `App::send_to_terminal`.  `take_writer_ok` is the outcome of
`pty.take_writer()` (an external effect); the write/flush results are
discarded by the source (`let _ = ...`), so a write is modelled as appending
to `pty_written`. -/
def send_to_terminal (take_writer_ok : Bool) (s : TerminalState)
    (input : List Char) : TerminalState :=
  if s.has_pty then
    if take_writer_ok then { s with pty_written := s.pty_written ++ input }
    else { s with terminal_output := s.terminal_output ++ input }
  else
    { s with terminal_output := (s.terminal_output ++ noTerminalMarker) ++ input }

/-- The amended claim C9: with a pty and a working writer the text goes
verbatim to the pty input side; with no pty it is echoed to `output_buffer`
behind the `"(no terminal) "` marker; with a pty whose writer cannot be
taken it is echoed to `output_buffer` with no marker.  In both echo cases
the text ends the buffer, hence is observable in a later snapshot. -/
def SendToTerminalSpec (take_writer_ok : Bool) (s : TerminalState)
    (input : List Char) : Prop :=
  (s.has_pty = true → take_writer_ok = true →
    (send_to_terminal take_writer_ok s input).pty_written = s.pty_written ++ input ∧
    (send_to_terminal take_writer_ok s input).terminal_output = s.terminal_output) ∧
  (s.has_pty = false →
    (send_to_terminal take_writer_ok s input).terminal_output =
      (s.terminal_output ++ noTerminalMarker) ++ input ∧
    (send_to_terminal take_writer_ok s input).pty_written = s.pty_written) ∧
  (s.has_pty = true → take_writer_ok = false →
    (send_to_terminal take_writer_ok s input).terminal_output = s.terminal_output ++ input ∧
    (send_to_terminal take_writer_ok s input).pty_written = s.pty_written) ∧
  (s.has_pty = false ∨ take_writer_ok = false →
    input <:+ (send_to_terminal take_writer_ok s input).terminal_output)

/-! ## Saving (`save_file` in `src/main.rs`) -/

/-- `struct FileItem` (the `modified: SystemTime` field, irrelevant to any
claim, is not modelled). -/
structure FileItem where
  name : String
  path : String
  is_dir : Bool
  size : Nat
  permissions : String
  is_hidden : Bool
deriving Repr, DecidableEq

/-- The fields of `App` that `save_file` reads and writes. -/
structure FsApp where
  files : List FileItem
  selected_index : Nat
  file_content : List Char
  original_file_content : List Char
  file_has_unsaved_changes : Bool
deriving Repr, DecidableEq

/-- `App::save_file`.  `fsWrite` is the file-system collaborator
(`fs::write`); its error propagates via `?` before any state mutation. -/
def save_file (fsWrite : String → List Char → Except String Unit)
    (a : FsApp) : Except String Unit × FsApp :=
  match a.files.get? a.selected_index with
  | none => (Except.ok (), a)
  | some selected_file =>
    if selected_file.is_dir = false ∧ a.file_has_unsaved_changes = true then
      match fsWrite selected_file.path a.file_content with
      | Except.error e => (Except.error e, a)
      | Except.ok _ =>
        (Except.ok (),
          { a with
            original_file_content := a.file_content
            file_has_unsaved_changes := false })
    else (Except.ok (), a)

/-- Claim C3's statement: inserting a newline and then immediately calling
backspace restores content, cursor offset, cursor line and cursor column to
their pre-insert values. -/
def NewlineBackspaceRoundTrip (s : EditorState) : Prop :=
  ∃ s1 s2, handle_file_edit s '\n' = some s1 ∧
    handle_file_edit s1 backspaceChar = some s2 ∧
    s2.file_content = s.file_content ∧
    s2.cursor_position = s.cursor_position ∧
    s2.cursor_line = s.cursor_line ∧
    s2.cursor_col = s.cursor_col

/-- A concrete editor state (content `"a\n"`, cursor at the end) satisfying
`EditorInv`, used to instantiate the editor claims. -/
def editWitnessState : EditorState :=
  { file_content := ['a', '\n']
    original_file_content := ['a', '\n']
    cursor_position := 2
    cursor_line := 1
    cursor_col := 0
    file_content_scroll := 0
    file_has_unsaved_changes := false }

/-- Claim C2's failing input: content `"é\n"`, cursor at offset 2 (start of
line 1), a state satisfying the documented buffer invariant. -/
def c2FailState : EditorState :=
  { file_content := ['é', '\n']
    original_file_content := ['é', '\n']
    cursor_position := 2
    cursor_line := 1
    cursor_col := 0
    file_content_scroll := 0
    file_has_unsaved_changes := false }

/-- The buffer state produced by typing `'é'` into a freshly opened empty
buffer: content `"é"`, cursor at offset 1 (line 0, column 1), dirty. -/
def eAcuteState : EditorState :=
  { file_content := ['é']
    original_file_content := []
    cursor_position := 1
    cursor_line := 0
    cursor_col := 1
    file_content_scroll := 0
    file_has_unsaved_changes := true }

/-- A file-system collaborator whose write always fails (C8 witness). -/
def failWrite : String → List Char → Except String Unit :=
  fun _ _ => Except.error "disk full"

/-- Concrete selected file for the C8 witness. -/
def saveWitnessFile : FileItem :=
  { name := "a.txt", path := "a.txt", is_dir := false, size := 2,
    permissions := "-rw-r--r--", is_hidden := false }

/-- Concrete app state with unsaved changes for the C8 witness. -/
def saveWitnessApp : FsApp :=
  { files := [saveWitnessFile]
    selected_index := 0
    file_content := ['h', 'i']
    original_file_content := ['h']
    file_has_unsaved_changes := true }

theorem listPosition_lt_length {p : α → Bool} {l : List α} {i : Nat}
    (h : listPosition p l = some i) : i < l.length := by
  induction l generalizing i with
  | nil => simp [listPosition] at h
  | cons x xs ih =>
    simp only [listPosition] at h
    by_cases hx : p x = true
    · rw [if_pos hx] at h
      injection h with h
      simp only [List.length_cons]
      omega
    · rw [if_neg hx] at h
      obtain ⟨j, hj, hji⟩ := Option.map_eq_some'.mp h
      have := ih hj
      simp only [List.length_cons]
      omega

/-- The repair block establishes the active-index invariant outright. -/
theorem TabManager.activeOk_repair_active (m : TabManager) (i : Nat) :
    (m.repair_active i).ActiveOk := by
  unfold repair_active ActiveOk
  by_cases h0 : m.tabs.isEmpty
  · simp [h0]
    exact Or.inl (List.isEmpty_iff.mp h0)
  · have hne : m.tabs ≠ [] := by simpa [List.isEmpty_iff] using h0
    have hlen : 0 < m.tabs.length := List.length_pos.mpr hne
    by_cases h1 : m.active_tab ≥ m.tabs.length
    · simp [h0, h1]
      omega
    · by_cases h2 : i ≤ m.active_tab ∧ m.active_tab > 0
      · simp [h0, h1, h2]
        omega
      · simp [h0, h1, h2]
        omega

theorem TabManager.activeOk_applyOp (m : TabManager) (op : TabOp)
    (h : m.ActiveOk) : (m.applyOp op).ActiveOk := by
  cases op with
  | addTab name path content =>
    simp only [applyOp, add_tab]
    cases hf : m.find_tab_by_path path with
    | some j =>
      have hj : j < m.tabs.length := listPosition_lt_length hf
      simp [ActiveOk]
      omega
    | none =>
      simp [ActiveOk]
  | closeTab index =>
    simp only [applyOp, close_tab]
    by_cases h1 : index ≥ m.tabs.length
    · rw [if_pos h1]
      exact h
    · rw [if_neg h1]
      by_cases h2 : (m.tabs.getD index default).has_unsaved_changes = true
      · rw [if_pos h2]
        exact h
      · rw [if_neg h2]
        exact activeOk_repair_active _ _
  | forceCloseTab index =>
    simp only [applyOp, force_close_tab]
    by_cases h1 : index ≥ m.tabs.length
    · simpa [h1] using h
    · simp [h1]
      exact activeOk_repair_active _ _
  | confirmCloseTab =>
    simp only [applyOp, confirm_close_tab]
    cases hc : m.tab_to_close with
    | some index =>
      simp only [force_close_tab]
      by_cases h1 : index ≥ m.tabs.length
      · simpa [h1, ActiveOk] using h
      · simp [h1]
        exact activeOk_repair_active _ _
    | none => simpa [ActiveOk] using h
  | switchToTab index =>
    simp only [applyOp, switch_to_tab]
    by_cases h1 : index ≥ m.tabs.length
    · simpa [h1] using h
    · simp [h1, ActiveOk]
      omega
  | nextTab =>
    simp only [applyOp, next_tab]
    by_cases h0 : m.tabs.isEmpty
    · simpa [h0] using h
    · have hne : m.tabs ≠ [] := by simpa [List.isEmpty_iff] using h0
      have hlen : 0 < m.tabs.length := List.length_pos.mpr hne
      simp [h0, ActiveOk]
      exact Or.inr (Nat.mod_lt _ hlen)
  | previousTab =>
    simp only [applyOp, previous_tab]
    by_cases h0 : m.tabs.isEmpty
    · simpa [h0] using h
    · have hne : m.tabs ≠ [] := by simpa [List.isEmpty_iff] using h0
      have hlen : 0 < m.tabs.length := List.length_pos.mpr hne
      by_cases h1 : m.active_tab = 0
      · simp [h0, h1, ActiveOk]
        omega
      · simp [h0, h1, ActiveOk]
        rcases h with h | h
        · exact absurd h hne
        · omega

theorem TabManager.activeOk_foldl (ops : List TabOp) (m : TabManager)
    (h : m.ActiveOk) : (ops.foldl TabManager.applyOp m).ActiveOk := by
  induction ops generalizing m with
  | nil => exact h
  | cons op ops ih => exact ih _ (activeOk_applyOp m op h)

theorem TabManager.activeOk_run (ops : List TabOp) : (TabManager.run ops).ActiveOk :=
  TabManager.activeOk_foldl ops TabManager.new (Or.inl rfl)

theorem TabManager.tabs_repair_active (m : TabManager) (i : Nat) :
    (m.repair_active i).tabs = m.tabs := by
  unfold repair_active
  split_ifs <;> rfl

theorem TabManager.show_repair_active (m : TabManager) (i : Nat) :
    (m.repair_active i).show_close_confirmation = m.show_close_confirmation := by
  unfold repair_active
  split_ifs <;> rfl

theorem TabManager.ttc_repair_active (m : TabManager) (i : Nat) :
    (m.repair_active i).tab_to_close = m.tab_to_close := by
  unfold repair_active
  split_ifs <;> rfl

/-- C6: `close_tab` on an in-range clean tab removes it from the tab list
immediately without entering confirmation, while `close_tab` on an in-range
dirty tab records the pending index, sets the confirmation flag and leaves
`tab_count` unchanged until `confirm_close_tab` forcibly removes the tab or
`cancel_close_tab` clears the pending state with no structural change. -/
theorem claim_C6_close_tab_confirmation_gate (m : TabManager) (i : Nat)
    (hi : i < m.tabs.length) : CloseTabBehavior m i := by
  have hng : ¬ i ≥ m.tabs.length := by omega
  unfold CloseTabBehavior
  constructor
  · intro hclean
    have h2 : ¬ (m.tabs.getD i default).has_unsaved_changes = true := by
      rw [hclean]
      exact Bool.false_ne_true
    simp only [TabManager.close_tab, if_neg hng, if_neg h2]
    refine ⟨TabManager.tabs_repair_active _ _, ?_, ?_, ?_⟩
    · rw [TabManager.tabs_repair_active]
      exact List.length_eraseIdx_add_one hi
    · exact TabManager.show_repair_active _ _
    · exact TabManager.ttc_repair_active _ _
  · intro hdirty
    simp only [TabManager.close_tab, if_neg hng, if_pos hdirty]
    refine ⟨by trivial, by trivial, by trivial, ?_, ?_, by trivial, by trivial,
      by trivial, by trivial, by trivial⟩
    · simp only [TabManager.confirm_close_tab, TabManager.force_close_tab, if_neg hng]
      exact TabManager.tabs_repair_active _ _
    · simp only [TabManager.confirm_close_tab, TabManager.force_close_tab, if_neg hng]
      rw [TabManager.tabs_repair_active]
      exact List.length_eraseIdx_add_one hi

theorem claim_C6_witness :
    1 < mixedTabManager.tabs.length ∧ CloseTabBehavior mixedTabManager 1 :=
  ⟨by decide, claim_C6_close_tab_confirmation_gate mixedTabManager 1 (by decide)⟩

/-- C7: for every sequence of tab-manager operations starting from the fresh
manager, whenever the tab list is non-empty the active index is in range. -/
theorem claim_C7_active_index_invariant (ops : List TabOp)
    (h : (TabManager.run ops).tabs ≠ []) :
    (TabManager.run ops).active_tab < (TabManager.run ops).tabs.length := by
  rcases TabManager.activeOk_run ops with h0 | h0
  · exact absurd h0 h
  · exact h0

theorem claim_C7_witness :
    (TabManager.run [TabOp.addTab "a" "a" ""]).tabs ≠ [] ∧
    (TabManager.run [TabOp.addTab "a" "a" ""]).active_tab <
      (TabManager.run [TabOp.addTab "a" "a" ""]).tabs.length :=
  ⟨by decide, claim_C7_active_index_invariant [TabOp.addTab "a" "a" ""] (by decide)⟩

/-- C10: `close_tab` on an in-range dirty tab returns an `Err` result while
recording the pending-close state; it never removes the tab. -/
theorem claim_C10_close_dirty_reports_error (m : TabManager) (i : Nat)
    (hi : i < m.tabs.length)
    (hd : (m.tabs.getD i default).has_unsaved_changes = true) :
    CloseTabDirtyErr m i := by
  have hng : ¬ i ≥ m.tabs.length := by omega
  unfold CloseTabDirtyErr
  simp only [TabManager.close_tab, if_neg hng, if_pos hd]
  exact ⟨by trivial, by trivial, by trivial, by trivial⟩

theorem mem_of_getLast?_eq_some {l : List α} {x : α}
    (h : l.getLast? = some x) : x ∈ l := by
  obtain ⟨hne, hx⟩ := List.mem_getLast?_eq_getLast (show x ∈ l.getLast? from h)
  rw [hx]
  exact List.getLast_mem hne

theorem listInsertAt?_eq_some {l : List α} {n : Nat} (a : α) (h : n ≤ l.length) :
    listInsertAt? n a l = some (l.take n ++ a :: l.drop n) := by
  induction l generalizing n with
  | nil =>
    have : n = 0 := by simpa using h
    subst this
    rfl
  | cons x xs ih =>
    cases n with
    | zero => rfl
    | succ m =>
      have hm : m ≤ xs.length := by simpa using h
      simp [listInsertAt?, ih hm]

theorem listRemoveAt?_eq_some {l : List α} {n : Nat} (h : n < l.length) :
    listRemoveAt? n l = some (l.take n ++ l.drop (n + 1)) := by
  induction l generalizing n with
  | nil => simp at h
  | cons x xs ih =>
    cases n with
    | zero => rfl
    | succ m =>
      have hm : m < xs.length := by simpa using h
      simp [listRemoveAt?, ih hm]

theorem lineCol_concat_nl (p : List Char) :
    lineCol (p ++ ['\n']) = ((lineCol p).1 + 1, 0) := by
  unfold lineCol
  rw [List.foldl_append]
  simp [lineColStep]

theorem lineCol_concat_ch (p : List Char) {c : Char} (hc : ¬ c = '\n') :
    lineCol (p ++ [c]) = ((lineCol p).1, (lineCol p).2 + 1) := by
  unfold lineCol
  rw [List.foldl_append]
  simp [lineColStep, hc]

theorem splitInclusiveNl_ne_nil {l : List Char} (h : l ≠ []) :
    splitInclusiveNl l ≠ [] := by
  cases l with
  | nil => exact absurd rfl h
  | cons c rest =>
    by_cases hc : c = '\n'
    · simp [splitInclusiveNl, hc]
    · simp only [splitInclusiveNl, if_neg hc]
      cases splitInclusiveNl rest <;> simp

theorem splitInclusiveNl_append_nl (a b : List Char) (ha : '\n' ∉ a) :
    splitInclusiveNl (a ++ '\n' :: b) = (a ++ ['\n']) :: splitInclusiveNl b := by
  induction a with
  | nil => simp [splitInclusiveNl]
  | cons c a' ih =>
    have hc : ¬ c = '\n' := fun hh => ha (by simp [hh])
    have ha' : '\n' ∉ a' := fun hh => ha (by simp [hh])
    simp only [List.cons_append, splitInclusiveNl, List.append_eq, if_neg hc]
    rw [ih ha']

theorem splitInclusiveNl_append_of_ends_nl (q z : List Char)
    (hq : q = [] ∨ ∃ q', q = q' ++ ['\n']) :
    splitInclusiveNl (q ++ z) = splitInclusiveNl q ++ splitInclusiveNl z := by
  rcases hq with rfl | ⟨q', rfl⟩
  · simp [splitInclusiveNl]
  · induction q' with
    | nil => simp [splitInclusiveNl]
    | cons c q'' ih =>
      by_cases hc : c = '\n'
      · subst hc
        simp only [List.cons_append, splitInclusiveNl, List.append_eq, if_pos]
        rw [ih]
      · have hne : q'' ++ ['\n'] ≠ [] := by simp
        obtain ⟨p0, ps, hps⟩ : ∃ p0 ps, splitInclusiveNl (q'' ++ ['\n']) = p0 :: ps := by
          cases hsp : splitInclusiveNl (q'' ++ ['\n']) with
          | nil => exact absurd hsp (splitInclusiveNl_ne_nil hne)
          | cons p0 ps => exact ⟨p0, ps, rfl⟩
        simp only [List.cons_append, splitInclusiveNl, List.append_eq, if_neg hc]
        rw [ih, hps]
        simp

theorem lineCol_fst_eq_countP (l : List Char) :
    (lineCol l).1 = l.countP (fun c => decide (c = '\n')) := by
  induction l using List.reverseRecOn with
  | nil => rfl
  | append_singleton p c ih =>
    by_cases hc : c = '\n'
    · subst hc
      rw [lineCol_concat_nl]
      simp [List.countP_append, ih, List.countP_cons]
    · rw [lineCol_concat_ch p hc]
      simp [List.countP_append, ih, List.countP_cons, hc]

theorem splitInclusiveNl_length_of_ends_nl (q : List Char)
    (hq : q = [] ∨ ∃ q', q = q' ++ ['\n']) :
    (splitInclusiveNl q).length = q.countP (fun c => decide (c = '\n')) := by
  rcases hq with rfl | ⟨q', rfl⟩
  · rfl
  · induction q' with
    | nil => simp [splitInclusiveNl]
    | cons c q'' ih =>
      by_cases hc : c = '\n'
      · subst hc
        simp only [List.cons_append, splitInclusiveNl, List.append_eq, if_pos]
        simp [List.countP_cons] at ih ⊢
        omega
      · have hne : q'' ++ ['\n'] ≠ [] := by simp
        obtain ⟨p0, ps, hps⟩ : ∃ p0 ps, splitInclusiveNl (q'' ++ ['\n']) = p0 :: ps := by
          cases hsp : splitInclusiveNl (q'' ++ ['\n']) with
          | nil => exact absurd hsp (splitInclusiveNl_ne_nil hne)
          | cons p0 ps => exact ⟨p0, ps, rfl⟩
        simp only [List.cons_append, splitInclusiveNl, List.append_eq, if_neg hc]
        rw [hps]
        rw [hps] at ih
        simp [List.countP_cons, hc] at ih ⊢
        omega

theorem lineCol_decomp (p : List Char) :
    ∃ q seg, p = q ++ seg ∧ '\n' ∉ seg ∧
      (lineCol p).2 = seg.length ∧ (lineCol p).1 = (lineCol q).1 ∧
      (q = [] ∨ ∃ q', q = q' ++ ['\n']) := by
  induction p using List.reverseRecOn with
  | nil => exact ⟨[], [], by simp, by simp, rfl, rfl, Or.inl rfl⟩
  | append_singleton p c ih =>
    obtain ⟨q, seg, hps, hnl, hcol, hline, hq⟩ := ih
    by_cases hc : c = '\n'
    · subst hc
      refine ⟨p ++ ['\n'], [], by simp, by simp, ?_, rfl, Or.inr ⟨p, rfl⟩⟩
      rw [lineCol_concat_nl]
      rfl
    · refine ⟨q, seg ++ [c], by rw [hps, List.append_assoc], ?_, ?_, ?_, hq⟩
      · intro hmem
        rcases List.mem_append.mp hmem with hin | hin
        · exact hnl hin
        · simp at hin
          exact hc hin.symm
      · rw [lineCol_concat_ch p hc, hcol]
        simp
      · rw [lineCol_concat_ch p hc]
        exact hline

theorem rustLines_getD_prefix (p b : List Char)
    (hp : ∀ c ∈ p, c = '\n' ∨ isControlChar c = false) :
    (lineCol p).1 < (rustLines (p ++ '\n' :: b)).length ∧
    ((rustLines (p ++ '\n' :: b)).getD (lineCol p).1 []).length = (lineCol p).2 := by
  obtain ⟨q, seg, rfl, hnl, hcol, hline, hq⟩ := lineCol_decomp p
  have hsplit : splitInclusiveNl ((q ++ seg) ++ '\n' :: b)
      = splitInclusiveNl q ++ ((seg ++ ['\n']) :: splitInclusiveNl b) := by
    rw [List.append_assoc, splitInclusiveNl_append_of_ends_nl q _ hq,
        splitInclusiveNl_append_nl seg b hnl]
  have hk : (lineCol (q ++ seg)).1 = (splitInclusiveNl q).length := by
    rw [hline, splitInclusiveNl_length_of_ends_nl q hq, lineCol_fst_eq_countP]
  have hsegLast : ¬ seg.getLast? = some '\r' := by
    intro hx
    have hxmem : '\r' ∈ seg := mem_of_getLast?_eq_some hx
    have hxp : '\r' ∈ q ++ seg := List.mem_append.mpr (Or.inr hxmem)
    rcases hp '\r' hxp with h1 | h1
    · exact absurd h1 (by decide)
    · exact absurd h1 (by decide)
  have hpiece : linesMap (seg ++ ['\n']) = seg := by
    unfold linesMap
    rw [if_pos (List.getLast?_concat seg)]
    simp only [List.dropLast_concat]
    rw [if_neg hsegLast]
  unfold rustLines
  rw [hsplit, List.map_append, List.map_cons]
  rw [hk]
  constructor
  · simp [List.length_append, List.length_map]
  · rw [List.getD_eq_getElem?_getD,
      List.getElem?_append_right (by rw [List.length_map] : ((splitInclusiveNl q).map linesMap).length ≤ (splitInclusiveNl q).length)]
    have h0 : (splitInclusiveNl q).length - ((splitInclusiveNl q).map linesMap).length = 0 := by
      rw [List.length_map]
      omega
    rw [h0]
    simp [hpiece, hcol]

theorem autoscroll_window (s : EditorState) :
    (autoscroll s).file_content_scroll ≤ (autoscroll s).cursor_line ∧
    (autoscroll s).cursor_line < (autoscroll s).file_content_scroll + visibleLines := by
  unfold autoscroll visibleLines
  split_ifs with h1 h2 <;> (try dsimp only) <;> omega

theorem finishEdit_spec (s : EditorState) (new_chars : List Char) :
    (finishEdit s new_chars).file_content = new_chars ∧
    (finishEdit s new_chars).original_file_content = s.original_file_content ∧
    (finishEdit s new_chars).cursor_position = s.cursor_position ∧
    (finishEdit s new_chars).cursor_line = s.cursor_line ∧
    (finishEdit s new_chars).cursor_col = s.cursor_col ∧
    (finishEdit s new_chars).file_has_unsaved_changes
      = decide (¬ new_chars = s.original_file_content) := by
  unfold finishEdit autoscroll
  split_ifs <;> exact ⟨rfl, rfl, rfl, rfl, rfl, rfl⟩

theorem finishEdit_window (s : EditorState) (new_chars : List Char) :
    (finishEdit s new_chars).file_content_scroll ≤ (finishEdit s new_chars).cursor_line ∧
    (finishEdit s new_chars).cursor_line
      < (finishEdit s new_chars).file_content_scroll + visibleLines := by
  unfold finishEdit
  exact autoscroll_window _

theorem editorInv_finishEdit (s : EditorState) (new_chars : List Char)
    (hpos : s.cursor_position ≤ new_chars.length)
    (hline : s.cursor_line = (lineCol (new_chars.take s.cursor_position)).1)
    (hcol : s.cursor_col = (lineCol (new_chars.take s.cursor_position)).2)
    (hmem : ∀ c ∈ new_chars.take s.cursor_position,
      c = '\n' ∨ isControlChar c = false) :
    EditorInv (finishEdit s new_chars) := by
  obtain ⟨h1, h2, h3, h4, h5, h6⟩ := finishEdit_spec s new_chars
  obtain ⟨h7, h8⟩ := finishEdit_window s new_chars
  exact ⟨by rw [h1, h3]; exact hpos,
    by rw [h4, h1, h3]; exact hline,
    by rw [h5, h1, h3]; exact hcol,
    by rw [h1, h3]; exact hmem,
    by rw [h6, h1, h2],
    h7, h8⟩

theorem handle_newline_eval (s : EditorState)
    (h : s.cursor_position ≤ s.file_content.length) :
    handle_file_edit s '\n' = some (finishEdit { s with
      cursor_position := s.cursor_position + 1
      cursor_line := s.cursor_line + 1
      cursor_col := 0 }
      (s.file_content.take s.cursor_position ++ '\n' :: s.file_content.drop s.cursor_position)) := by
  unfold handle_file_edit
  rw [if_pos rfl, listInsertAt?_eq_some '\n' h]
  rfl

theorem handle_insert_eval (s : EditorState) (ch : Char)
    (hn : ¬ ch = '\n') (hb : ¬ (ch = backspaceChar ∨ ch = deleteChar))
    (hc : isControlChar ch = false)
    (h : s.cursor_position ≤ s.file_content.length) :
    handle_file_edit s ch = some (finishEdit { s with
      cursor_position := s.cursor_position + 1
      cursor_col := s.cursor_col + 1 }
      (s.file_content.take s.cursor_position ++ ch :: s.file_content.drop s.cursor_position)) := by
  unfold handle_file_edit
  rw [if_neg hn, if_neg hb, if_neg (by simp [hc]), listInsertAt?_eq_some ch h]
  rfl

theorem handle_noedit_eval (s : EditorState) (ch : Char)
    (hn : ¬ ch = '\n') (hb : ¬ (ch = backspaceChar ∨ ch = deleteChar))
    (hc : isControlChar ch = true) :
    handle_file_edit s ch = some (finishEdit s s.file_content) := by
  unfold handle_file_edit
  rw [if_neg hn, if_neg hb, if_pos hc]

theorem handle_backspace_zero_eval (s : EditorState) (ch : Char)
    (hn : ¬ ch = '\n') (hbs : ch = backspaceChar ∨ ch = deleteChar)
    (h : s.cursor_position = 0) :
    handle_file_edit s ch = some (finishEdit s s.file_content) := by
  unfold handle_file_edit
  rw [if_neg hn, if_pos hbs, if_neg (by omega)]

theorem handle_backspace_col_pos_eval (s : EditorState) (ch : Char)
    (hn : ¬ ch = '\n') (hbs : ch = backspaceChar ∨ ch = deleteChar)
    (h0 : 0 < s.cursor_position) (hl : s.cursor_position ≤ s.file_content.length)
    (hcp : 0 < s.cursor_col) :
    handle_file_edit s ch = some (finishEdit { s with
      cursor_position := s.cursor_position - 1
      cursor_col := s.cursor_col - 1 }
      (s.file_content.take (s.cursor_position - 1) ++ s.file_content.drop s.cursor_position)) := by
  unfold handle_file_edit
  rw [if_neg hn, if_pos hbs, if_pos h0,
    listRemoveAt?_eq_some (show s.cursor_position - 1 < s.file_content.length by omega),
    show s.cursor_position - 1 + 1 = s.cursor_position from by omega]
  simp only [Option.map_some', Option.some.injEq]
  try dsimp only
  rw [if_pos hcp]

theorem handle_backspace_join_eval (s : EditorState) (ch : Char)
    (hn : ¬ ch = '\n') (hbs : ch = backspaceChar ∨ ch = deleteChar)
    (h0 : 0 < s.cursor_position) (hl : s.cursor_position ≤ s.file_content.length)
    (hcz : s.cursor_col = 0) (hlp : 0 < s.cursor_line)
    (hg : s.cursor_line - 1 < (rustLines s.file_content).length) :
    handle_file_edit s ch = some (finishEdit { s with
      cursor_position := s.cursor_position - 1
      cursor_line := s.cursor_line - 1
      cursor_col := utf8Length ((rustLines s.file_content).getD (s.cursor_line - 1) []) }
      (s.file_content.take (s.cursor_position - 1) ++ s.file_content.drop s.cursor_position)) := by
  unfold handle_file_edit
  rw [if_neg hn, if_pos hbs, if_pos h0,
    listRemoveAt?_eq_some (show s.cursor_position - 1 < s.file_content.length by omega),
    show s.cursor_position - 1 + 1 = s.cursor_position from by omega]
  simp only [Option.map_some', Option.some.injEq]
  try dsimp only
  rw [if_neg (by omega), if_pos hlp, if_pos hg]

theorem take_insert_concat (l : List α) (n : Nat) (a : α) (h : n ≤ l.length) :
    (l.take n ++ a :: l.drop n).take (n + 1) = l.take n ++ [a] := by
  rw [List.take_append_eq_append_take]
  have h1 : (l.take n).length = n := by
    simp [List.length_take]
    omega
  rw [List.take_of_length_le (by omega), h1,
    show n + 1 - n = 1 from by omega]
  simp

theorem take_append_left_self (A B : List α) (n : Nat) (h : A.length = n) :
    (A ++ B).take n = A := by
  rw [← h]
  exact List.take_left A B

theorem handle_backspace_pos_eval (s : EditorState) (ch : Char)
    (hn : ¬ ch = '\n') (hbs : ch = backspaceChar ∨ ch = deleteChar)
    (h0 : 0 < s.cursor_position) (hl : s.cursor_position ≤ s.file_content.length) :
    ∃ t, handle_file_edit s ch = some t ∧
      t.file_content = s.file_content.take (s.cursor_position - 1) ++
        s.file_content.drop s.cursor_position ∧
      t.cursor_position = s.cursor_position - 1 := by
  unfold handle_file_edit
  rw [if_neg hn, if_pos hbs, if_pos h0,
    listRemoveAt?_eq_some (show s.cursor_position - 1 < s.file_content.length by omega),
    show s.cursor_position - 1 + 1 = s.cursor_position from by omega]
  simp only [Option.map_some']
  refine ⟨_, rfl, ?_, ?_⟩
  · exact (finishEdit_spec _ _).1
  · rw [(finishEdit_spec _ _).2.2.1]
    split_ifs <;> rfl

theorem posInv_step (s : EditorState) (ch : Char)
    (h : s.cursor_position ≤ s.file_content.length) :
    ∃ s', handle_file_edit s ch = some s' ∧
      s'.cursor_position ≤ s'.file_content.length := by
  by_cases hn : ch = '\n'
  · subst hn
    refine ⟨_, handle_newline_eval s h, ?_⟩
    obtain ⟨h1, _, h3, _, _, _⟩ := finishEdit_spec _ _
    rw [h1, h3]
    show s.cursor_position + 1 ≤ (s.file_content.take s.cursor_position ++
      '\n' :: s.file_content.drop s.cursor_position).length
    simp only [List.length_append, List.length_cons, List.length_take, List.length_drop]
    omega
  · by_cases hb : ch = backspaceChar ∨ ch = deleteChar
    · by_cases hz : s.cursor_position = 0
      · refine ⟨_, handle_backspace_zero_eval s ch hn hb hz, ?_⟩
        obtain ⟨h1, _, h3, _, _, _⟩ := finishEdit_spec _ _
        rw [h1, h3]
        exact h
      · obtain ⟨t, ht, htc, htp⟩ :=
          handle_backspace_pos_eval s ch hn hb (by omega) h
        refine ⟨t, ht, ?_⟩
        rw [htc, htp]
        simp only [List.length_append, List.length_take, List.length_drop]
        omega
    · by_cases hc : isControlChar ch = true
      · refine ⟨_, handle_noedit_eval s ch hn hb hc, ?_⟩
        obtain ⟨h1, _, h3, _, _, _⟩ := finishEdit_spec _ _
        rw [h1, h3]
        exact h
      · have hc' : isControlChar ch = false := by simpa using hc
        refine ⟨_, handle_insert_eval s ch hn hb hc' h, ?_⟩
        obtain ⟨h1, _, h3, _, _, _⟩ := finishEdit_spec _ _
        rw [h1, h3]
        show s.cursor_position + 1 ≤ (s.file_content.take s.cursor_position ++
          ch :: s.file_content.drop s.cursor_position).length
        simp only [List.length_append, List.length_cons, List.length_take, List.length_drop]
        omega

set_option maxRecDepth 20000 in
/-- C1 is violated by the code: after the 150 single-line chunks of
`c1Chunks`, the buffer does not hold the last 100 lines in order
(`c1Expected`).  The trim step `lines[..].join("\n")` drops the trailing
newline, so the next chunk merges with the last retained line: the buffer
ends with merged two-character lines such as `[Char.ofNat 300, Char.ofNat
301]` (chunks 100 and 101 fused), and it actually spans the last 125
original lines packed into 100 buffer lines. -/
theorem claim_C1_reader_not_last_100_lines :
    rustLines (reader_run c1Chunks) ≠ c1Expected ∧
    [Char.ofNat 300, Char.ofNat 301] ∈ rustLines (reader_run c1Chunks) := by
  decide

/-- C8: if the file-system write in `save_file` fails, the error is returned
to the caller and the app state (in particular `file_content`,
`original_file_content` and `file_has_unsaved_changes`) keeps its pre-call
value. -/
theorem claim_C8_failed_save_preserves_buffer
    (fsWrite : String → List Char → Except String Unit)
    (a : FsApp) (f : FileItem) (e : String)
    (hf : a.files.get? a.selected_index = some f)
    (hdir : f.is_dir = false)
    (hun : a.file_has_unsaved_changes = true)
    (hw : fsWrite f.path a.file_content = Except.error e) :
    save_file fsWrite a = (Except.error e, a) := by
  simp only [save_file, hf]
  rw [if_pos ⟨hdir, hun⟩, hw]

theorem claim_C8_witness :
    saveWitnessApp.files.get? saveWitnessApp.selected_index = some saveWitnessFile ∧
    saveWitnessFile.is_dir = false ∧
    saveWitnessApp.file_has_unsaved_changes = true ∧
    failWrite saveWitnessFile.path saveWitnessApp.file_content =
      Except.error "disk full" ∧
    save_file failWrite saveWitnessApp = (Except.error "disk full", saveWitnessApp) :=
  ⟨rfl, rfl, rfl, rfl,
    claim_C8_failed_save_preserves_buffer failWrite saveWitnessApp saveWitnessFile
      "disk full" rfl rfl rfl rfl⟩

/-- C9 as stated is false on the code: with a pty present whose writer
cannot be taken (`take_writer()` fails), `send_to_terminal` appends the
input to `output_buffer` with no distinguishing marker at all.  At the
concrete state below no non-empty marker separates the old buffer contents
from the appended text. -/
theorem claim_C9_counterexample_no_marker :
    ¬ ∃ marker : List Char, marker ≠ [] ∧
      (send_to_terminal false ⟨true, [], []⟩ ['x']).terminal_output =
        ([] : List Char) ++ marker ++ ['x'] := by
  rintro ⟨m, hm, h⟩
  have h' : (['x'] : List Char) = m ++ ['x'] := by
    simpa [send_to_terminal] using h
  have hlen := congrArg List.length h'
  simp [List.length_append] at hlen
  exact hm hlen

/-- C9 amended: `send_to_terminal` writes the text verbatim to the pty input
side when the pty is present and its writer can be taken; with no pty it
echoes the text into `output_buffer` behind the `"(no terminal) "` marker;
with a pty whose writer cannot be taken it echoes the text into
`output_buffer` without a marker; in both echo cases the text is a suffix of
the buffer, hence observable in a subsequent snapshot. -/
theorem claim_C9_forward_input_amended (take_writer_ok : Bool)
    (s : TerminalState) (input : List Char) :
    SendToTerminalSpec take_writer_ok s input := by
  unfold SendToTerminalSpec
  refine ⟨fun h1 h2 => ?_, fun h1 => ?_, fun h1 h2 => ?_, fun h1 => ?_⟩
  · rw [send_to_terminal, if_pos h1, if_pos h2]
    exact ⟨rfl, rfl⟩
  · rw [send_to_terminal, if_neg (by simp [h1])]
    exact ⟨rfl, rfl⟩
  · rw [send_to_terminal, if_pos h1, if_neg (by simp [h2])]
    exact ⟨rfl, rfl⟩
  · rcases h1 with h1 | h1
    · rw [send_to_terminal, if_neg (by simp [h1])]
      exact List.suffix_append _ _
    · by_cases hp : s.has_pty = true
      · rw [send_to_terminal, if_pos hp, if_neg (by simp [h1])]
        exact List.suffix_append _ _
      · rw [send_to_terminal, if_neg hp]
        exact List.suffix_append _ _

theorem claim_C9_witness :
    SendToTerminalSpec false ⟨false, [], []⟩ ['x'] :=
  claim_C9_forward_input_amended false ⟨false, [], []⟩ ['x']

theorem claim_C10_witness :
    0 < dirtyTabManager.tabs.length ∧
    (dirtyTabManager.tabs.getD 0 default).has_unsaved_changes = true ∧
    CloseTabDirtyErr dirtyTabManager 0 :=
  ⟨by decide, by decide,
    claim_C10_close_dirty_reports_error dirtyTabManager 0 (by decide) (by decide)⟩

theorem finishEdit_self (s : EditorState)
    (hd : s.file_has_unsaved_changes = decide (s.file_content ≠ s.original_file_content))
    (h1 : s.file_content_scroll ≤ s.cursor_line)
    (h2 : s.cursor_line < s.file_content_scroll + visibleLines) :
    finishEdit s s.file_content = s := by
  obtain ⟨fc, ofc, cp, cl, cc, fs, fh⟩ := s
  simp only at hd h1 h2
  unfold finishEdit autoscroll
  dsimp only
  rw [if_neg (by omega), if_neg (by omega), ← hd]

theorem editorInv_openBuffer (content : List Char) : EditorInv (openBuffer content) := by
  refine ⟨Nat.zero_le _, ?_, ?_, ?_, ?_, Nat.le_refl 0, ?_⟩
  · simp [openBuffer, lineCol]
  · simp [openBuffer, lineCol]
  · simp [openBuffer]
  · simp [openBuffer]
  · simp [openBuffer, visibleLines]

theorem runEditsFrom_posInv (chs : List Char) (s : EditorState)
    (h : s.cursor_position ≤ s.file_content.length) :
    ∃ s', chs.foldl (fun acc ch => acc.bind (fun t => handle_file_edit t ch)) (some s)
      = some s' ∧ s'.cursor_position ≤ s'.file_content.length := by
  induction chs generalizing s with
  | nil => exact ⟨s, rfl, h⟩
  | cons ch chs ih =>
    obtain ⟨s1, hs1, h1⟩ := posInv_step s ch h
    rw [List.foldl_cons]
    have hb : (some s).bind (fun t => handle_file_edit t ch) = some s1 := by
      simpa using hs1
    rw [hb]
    exact ih s1 h1

/-- C2 is violated by the code on non-ASCII lines: at `c2FailState`
(content `"é\n"`, cursor offset 2, a state satisfying the documented buffer
invariant `EditorInv`), backspace removes the newline and joins the lines,
and the source sets `cursor_col = lines[cursor_line].len()` — the UTF-8
byte length 2 of `"é"` — whereas the claim (with the spec's
character-sequence cursor model) requires the character length 1 of the
now-current line.  The theorem evaluates the embedding at the failing
input: content, offset and line change as the claim states, but
`cursor_col` becomes 2 while the now-current line has 1 character. -/
theorem claim_C2_backspace_col_byte_length_divergence :
    EditorInv c2FailState ∧
    (handle_file_edit c2FailState backspaceChar).map EditorState.file_content
      = some ['é'] ∧
    (handle_file_edit c2FailState backspaceChar).map EditorState.cursor_position
      = some 1 ∧
    (handle_file_edit c2FailState backspaceChar).map EditorState.cursor_line
      = some 0 ∧
    (handle_file_edit c2FailState backspaceChar).map EditorState.cursor_col
      = some 2 ∧
    ((rustLines c2FailState.file_content).getD 0 []).length = 1 ∧
    utf8Length ((rustLines c2FailState.file_content).getD 0 []) = 2 := by
  decide

/-- C3 is violated by the code at a reachable buffer state: typing `'é'`
into a freshly opened empty buffer reaches `eAcuteState` (cursor column 1);
inserting a newline and then immediately backspacing restores content,
offset and line, but the source sets `cursor_col` to the UTF-8 byte length
`"é".len() = 2` instead of the pre-insert column 1, so the round-trip
property the claim asserts fails there. -/
theorem claim_C3_roundtrip_fails_on_non_ascii :
    EditorReachable eAcuteState ∧ ¬ NewlineBackspaceRoundTrip eAcuteState := by
  constructor
  · exact EditorReachable.step 'é' (EditorReachable.opened []) (by decide)
  · rintro ⟨s1, s2, h1, h2, hc, hp, hl, hcc⟩
    have hbind : ((handle_file_edit eAcuteState '\n').bind
        (fun t => handle_file_edit t backspaceChar)).map EditorState.cursor_col
        = some 2 := by decide
    rw [h1] at hbind
    simp only [Option.some_bind] at hbind
    rw [h2] at hbind
    simp only [Option.map_some'] at hbind
    injection hbind with hbind
    rw [hcc] at hbind
    exact absurd hbind (by decide)

theorem claim_C5_cursor_offset_in_bounds (content : List Char) (chs : List Char) :
    ∃ s, runEdits content chs = some s ∧
      s.cursor_position ≤ s.file_content.length := by
  obtain ⟨s, hs, h⟩ := runEditsFrom_posInv chs (openBuffer content) (Nat.zero_le _)
  exact ⟨s, hs, h⟩

/-- C4: every control character other than newline and the two
backspace-handled keys (`'\u{8}'` and `'\u{7f}'`) leaves the whole editor
state unchanged: content, cursor offset, line, column, dirty flag and scroll
offset. -/
theorem claim_C4_control_char_noop (s : EditorState) (ch : Char)
    (h : EditorInv s) (hc : isControlChar ch = true) (hn : ¬ ch = '\n')
    (hb : ¬ ch = backspaceChar) (hdel : ¬ ch = deleteChar) :
    handle_file_edit s ch = some s := by
  obtain ⟨hpos, hline, hcol, hmem, hdirty, hw1, hw2⟩ := h
  rw [handle_noedit_eval s ch hn (fun hor => hor.elim hb hdel) hc]
  rw [finishEdit_self s hdirty hw1 hw2]

theorem claim_C4_witness :
    EditorInv editWitnessState ∧ isControlChar (Char.ofNat 13) = true ∧
    ¬ Char.ofNat 13 = '\n' ∧ ¬ Char.ofNat 13 = backspaceChar ∧
    ¬ Char.ofNat 13 = deleteChar ∧
    handle_file_edit editWitnessState (Char.ofNat 13) = some editWitnessState :=
  ⟨by decide, by decide, by decide, by decide, by decide,
    claim_C4_control_char_noop editWitnessState (Char.ofNat 13) (by decide)
      (by decide) (by decide) (by decide) (by decide)⟩

end LsPretty
